import Mathlib

/-!
Verification of the `futures-test-abort` library (src/lib.rs).

The library is embedded shallowly: every future is a state machine.
A poll of a future with state type `σ` and output type `α` is a function
`σ → Option (PollResult σ α)`; the `Option` is `none` exactly when the
Rust poll panics, and the `woke` flag of a `PollResult` records whether
`cx.waker().wake_by_ref()` was invoked during that poll.  Awaiting a
future is modelled by the fuel-indexed driver `run`.
-/

namespace FuturesTestAbort

/-- The `Poll` enum of the Rust task system: `Ready(v)` or `Pending`. -/
inductive Poll (α : Type) where
  | ready : α → Poll α
  | pending : Poll α
  deriving DecidableEq

/-- Outcome of one poll call: the returned `Poll`, the state of the future
after the call, and whether the waker was invoked during the call. -/
structure PollResult (σ α : Type) where
  out : Poll α
  state : σ
  woke : Bool
  deriving DecidableEq

/-- `Aborted` error value (src/lib.rs lines 156-160): carries the number of
polls made before the future was aborted. -/
structure Aborted where
  num_polls : Nat
  deriving DecidableEq

/-- State of the `Abort` wrapper (src/lib.rs lines 162-170): a poll counter,
the limit, and the state of the wrapped future. -/
structure Abort (σ : Type) where
  num_polls : Nat
  max_polls : Nat
  future : σ
  deriving DecidableEq

/-- `Abort::poll` (src/lib.rs lines 178-194).  If `num_polls >= max_polls`
it returns `Ready(Err(Aborted { num_polls }))` without touching the inner
future.  Otherwise it increments `num_polls`, forwards the poll to the
inner future (given by `pollFn`) and maps `Ready v` to `Ready (Ok v)`,
propagating `Pending` as is.  `Abort` itself never calls the waker, so the
`woke` flag of the result is exactly the inner poll's flag. -/
def Abort.poll {σ α : Type} (pollFn : σ → Option (PollResult σ α))
    (s : Abort σ) : Option (PollResult (Abort σ) (Except Aborted α)) :=
  if s.num_polls ≥ s.max_polls then
    some ⟨Poll.ready (Except.error ⟨s.num_polls⟩), s, false⟩
  else
    match pollFn s.future with
    | none => none
    | some r =>
      match r.out with
      | Poll.ready v =>
          some ⟨Poll.ready (Except.ok v), ⟨s.num_polls + 1, s.max_polls, r.state⟩, r.woke⟩
      | Poll.pending =>
          some ⟨Poll.pending, ⟨s.num_polls + 1, s.max_polls, r.state⟩, r.woke⟩

/-- The `abort` constructor (src/lib.rs lines 201-210): wraps a future with
`num_polls = 0` and the given limit. -/
def abort {σ : Type} (future : σ) (max_polls : Nat) : Abort σ :=
  ⟨0, max_polls, future⟩

/-- The `Never` future (src/lib.rs line 214): a stateless marker. -/
inductive Never where
  | mk
  deriving DecidableEq

/-- `Never::poll` (src/lib.rs lines 219-222): wakes the waker by reference
and returns `Pending`, on every poll. -/
def Never.poll (s : Never) : Option (PollResult Never Unit) :=
  some ⟨Poll.pending, s, true⟩

/-- The `never` constructor (src/lib.rs lines 227-229). -/
def never : Never := Never.mk

/-- State of the `After` future (src/lib.rs lines 232-236): an optional held
value, a poll counter and the limit. -/
structure After (α : Type) where
  value : Option α
  num_polls : Nat
  max_polls : Nat
  deriving DecidableEq

/-- `After::poll` (src/lib.rs lines 241-254).  If `num_polls >= max_polls`
it takes the held value and unwraps it — a panic (`none`) when the value
was already taken — returning `Ready(value)` without waking.  Otherwise it
increments `num_polls`, wakes the waker and returns `Pending`. -/
def After.poll {α : Type} (s : After α) : Option (PollResult (After α) α) :=
  if s.num_polls ≥ s.max_polls then
    match s.value with
    | some v => some ⟨Poll.ready v, ⟨none, s.num_polls, s.max_polls⟩, false⟩
    | none => none
  else
    some ⟨Poll.pending, ⟨s.value, s.num_polls + 1, s.max_polls⟩, true⟩

/-- The `after` constructor (src/lib.rs lines 258-264): holds `some value`,
`num_polls = 0` and the given limit. -/
def after {α : Type} (value : α) (max_polls : Nat) : After α :=
  ⟨some value, 0, max_polls⟩

/-- Result of driving a future with a given amount of fuel: it resolved to
a value, a poll panicked, or the fuel ran out while it was still pending. -/
inductive RunResult (α : Type) where
  | resolved : α → RunResult α
  | panicked : RunResult α
  | pending : RunResult α
  deriving DecidableEq

/-- Awaiting a future: poll repeatedly, up to `fuel` times, until the
future resolves or a poll panics. -/
def run {σ α : Type} (pollFn : σ → Option (PollResult σ α)) :
    Nat → σ → RunResult α
  | 0, _ => RunResult.pending
  | fuel + 1, s =>
    match pollFn s with
    | none => RunResult.panicked
    | some r =>
      match r.out with
      | Poll.ready v => RunResult.resolved v
      | Poll.pending => run pollFn fuel r.state

/-- The observable trace of the first `n` polls of a future: for each poll,
the returned `Poll` together with the `woke` flag, or `none` for a panic
(after which polling stops). -/
def pollTrace {σ α : Type} (pollFn : σ → Option (PollResult σ α)) :
    Nat → σ → List (Option (Poll α × Bool))
  | 0, _ => []
  | n + 1, s =>
    match pollFn s with
    | none => [none]
    | some r => some (r.out, r.woke) :: pollTrace pollFn n r.state

/-- Helper for C1: from a state with `k` polls done out of `m`, the
abort-wrapped `Never` resolves to `Err(Aborted m)` within `m - k + 1`
polls. -/
theorem run_abort_never (j : Nat) : ∀ k m : Nat, k + j = m →
    run (Abort.poll Never.poll) (j + 1) ⟨k, m, never⟩ =
      RunResult.resolved (Except.error ⟨m⟩) := by
  induction j with
  | zero =>
    intro k m h
    simp only [Nat.add_zero] at h
    subst h
    simp [run, Abort.poll]
  | succ j ih =>
    intro k m h
    have hk : ¬ k ≥ m := by omega
    simp only [run, Abort.poll, hk, if_false, Never.poll]
    exact ih (k + 1) m (by omega)

/-- C1: for every `max_polls < 100`, awaiting `abort(never(), max_polls)`
resolves to `Err(Aborted { num_polls: max_polls })`: the never-completing
future is cut off exactly at the limit with the reported poll count equal
to `max_polls`. -/
theorem abort_never_yields_aborted (m : Nat) (h : m < 100) :
    run (Abort.poll Never.poll) (m + 1) (abort never m) =
      RunResult.resolved (Except.error ⟨m⟩) :=
  run_abort_never m 0 m (Nat.zero_add m)

/-- Witness for C1 at `max_polls = 7`. -/
theorem abort_never_yields_aborted_witness :
    7 < 100 ∧
    run (Abort.poll Never.poll) 8 (abort never 7) =
      RunResult.resolved (Except.error ⟨7⟩) :=
  ⟨by decide, abort_never_yields_aborted 7 (by decide)⟩

/-- C3: the very first poll of `abort(inner, 0)` returns
`Ready(Err(Aborted { num_polls: 0 }))` with the wrapper state unchanged,
for every inner future and every poll function — so the inner future is
not polled even once. -/
theorem abort_zero_first_poll {σ α : Type}
    (pollFn : σ → Option (PollResult σ α)) (s0 : σ) :
    Abort.poll pollFn (abort s0 0) =
      some ⟨Poll.ready (Except.error ⟨0⟩), abort s0 0, false⟩ :=
  rfl

/-- C7: `never()` never completes: the trace of any number of polls is all
`Pending`, each poll invoking the waker, and a single poll of any `Never`
state returns `Pending` with the waker invoked and the state unchanged. -/
theorem never_always_pending_and_wakes (n : Nat) :
    pollTrace Never.poll n never =
      List.replicate n (some (Poll.pending, true)) ∧
    Never.poll never = some ⟨Poll.pending, never, true⟩ := by
  refine ⟨?_, rfl⟩
  induction n with
  | zero => rfl
  | succ n ih => simp [pollTrace, Never.poll, List.replicate, ih]

/-- Helper for C2 (success case): with both counters in sync at `k`, the
abort-wrapped `After` resolves to `Ok x` once the inner future reaches its
limit `mp`, provided the abort limit `M` is strictly larger. -/
theorem run_abort_after_ok {α : Type} (x : α) (j : Nat) :
    ∀ k mp M : Nat, k + j = mp → mp < M →
    run (Abort.poll After.poll) (j + 1) ⟨k, M, ⟨some x, k, mp⟩⟩ =
      RunResult.resolved (Except.ok x) := by
  induction j with
  | zero =>
    intro k mp M hjk hM
    simp only [Nat.add_zero] at hjk
    subst hjk
    have h1 : ¬ k ≥ M := by omega
    simp [run, Abort.poll, After.poll, h1]
  | succ j ih =>
    intro k mp M hjk hM
    have h1 : ¬ k ≥ M := by omega
    have h2 : ¬ k ≥ mp := by omega
    simp only [run, Abort.poll, After.poll, h1, h2, if_false]
    exact ih (k + 1) mp M (by omega) hM

/-- Helper for C2 (abort case): with both counters in sync at `k`, the
abort-wrapped `After` resolves to `Err(Aborted M)` once the abort limit
`M` is reached, provided the inner limit `mp` is at least `M`. -/
theorem run_abort_after_err {α : Type} (x : α) (j : Nat) :
    ∀ k mp M : Nat, k + j = M → M ≤ mp →
    run (Abort.poll After.poll) (j + 1) ⟨k, M, ⟨some x, k, mp⟩⟩ =
      RunResult.resolved (Except.error ⟨M⟩) := by
  induction j with
  | zero =>
    intro k mp M hjk hM
    simp only [Nat.add_zero] at hjk
    subst hjk
    simp [run, Abort.poll]
  | succ j ih =>
    intro k mp M hjk hM
    have h1 : ¬ k ≥ M := by omega
    have h2 : ¬ k ≥ mp := by omega
    simp only [run, Abort.poll, After.poll, h1, h2, if_false]
    exact ih (k + 1) mp M (by omega) hM

/-- C2: for every value `x` and every `max_polls < 100`, awaiting
`abort(after(x, max_polls), max_polls + 1)` yields `Ok x`, while awaiting
`abort(after(x, max_polls), max_polls)` yields
`Err(Aborted { num_polls: max_polls })`. -/
theorem abort_after_boundary {α : Type} (x : α) (mp : Nat) (h : mp < 100) :
    run (Abort.poll After.poll) (mp + 1) (abort (after x mp) (mp + 1)) =
      RunResult.resolved (Except.ok x) ∧
    run (Abort.poll After.poll) (mp + 1) (abort (after x mp) mp) =
      RunResult.resolved (Except.error ⟨mp⟩) :=
  ⟨run_abort_after_ok x mp 0 mp (mp + 1) (Nat.zero_add mp) (Nat.lt_succ_self mp),
   run_abort_after_err x mp 0 mp mp (Nat.zero_add mp) (Nat.le_refl mp)⟩

/-- Witness for C2 at `x = 42`, `max_polls = 5`. -/
theorem abort_after_boundary_witness :
    5 < 100 ∧
    (run (Abort.poll After.poll) 6 (abort (after (42 : Nat) 5) 6) =
      RunResult.resolved (Except.ok 42) ∧
    run (Abort.poll After.poll) 6 (abort (after (42 : Nat) 5) 5) =
      RunResult.resolved (Except.error ⟨5⟩)) :=
  ⟨by decide, abort_after_boundary 42 5 (by decide)⟩

/-- C5: any poll of `Abort` made while `num_polls < max_polls` is forwarded
to the inner future; if the inner future completes with `v` on that poll,
the wrapper returns `Ready(Ok v)` (so a future completing on its very
first poll, wrapped with any `max_polls ≥ 1`, resolves to `Ok v`), and
driving the wrapper resolves it to `Ok v` on that poll. -/
theorem abort_forwards_and_success_wins {σ α : Type}
    (pollFn : σ → Option (PollResult σ α)) (s : Abort σ) (v : α) (s2 : σ)
    (w : Bool) (hlt : s.num_polls < s.max_polls)
    (hready : pollFn s.future = some ⟨Poll.ready v, s2, w⟩) :
    Abort.poll pollFn s =
      some ⟨Poll.ready (Except.ok v), ⟨s.num_polls + 1, s.max_polls, s2⟩, w⟩ ∧
    run (Abort.poll pollFn) 1 s = RunResult.resolved (Except.ok v) := by
  have h1 : ¬ s.num_polls ≥ s.max_polls := by omega
  constructor
  · simp [Abort.poll, h1, hready]
  · simp [run, Abort.poll, h1, hready]

/-- Witness for C5: `after 42 0` completes on its first poll, and
`abort(after 42 0, 1)` resolves to `Ok 42`. -/
theorem abort_forwards_and_success_wins_witness :
    (abort (after (42 : Nat) 0) 1).num_polls <
      (abort (after (42 : Nat) 0) 1).max_polls ∧
    After.poll (abort (after (42 : Nat) 0) 1).future =
      some ⟨Poll.ready 42, ⟨none, 0, 0⟩, false⟩ ∧
    (Abort.poll After.poll (abort (after (42 : Nat) 0) 1) =
      some ⟨Poll.ready (Except.ok 42), ⟨1, 1, ⟨none, 0, 0⟩⟩, false⟩ ∧
    run (Abort.poll After.poll) 1 (abort (after (42 : Nat) 0) 1) =
      RunResult.resolved (Except.ok 42)) :=
  ⟨by decide, rfl,
   abort_forwards_and_success_wins After.poll (abort (after (42 : Nat) 0) 1)
     42 ⟨none, 0, 0⟩ false (by decide) rfl⟩

/-- Helper for C6: from a state holding `some x` with `k` of `mp` polls
done, the trace of the remaining `mp - k + 1` polls is `mp - k` pending
polls, each waking, followed by `Ready x` without waking. -/
theorem pollTrace_after (α : Type) (x : α) (j : Nat) : ∀ k mp : Nat,
    k + j = mp →
    pollTrace After.poll (j + 1) ⟨some x, k, mp⟩ =
      List.replicate j (some (Poll.pending, true)) ++
        [some (Poll.ready x, false)] := by
  induction j with
  | zero =>
    intro k mp h
    simp only [Nat.add_zero] at h
    subst h
    simp [pollTrace, After.poll]
  | succ j ih =>
    intro k mp h
    have h1 : ¬ k ≥ mp := by omega
    simp only [pollTrace, After.poll, h1, if_false, List.replicate,
      List.cons_append]
    exact congrArg _ (ih (k + 1) mp (by omega))

/-- C6: `after(x, mp)` is pending, waking each time, on each of its first
`mp` polls, then returns `Ready x` on poll `mp + 1`; the completing poll
consumes the held value (the state keeps `none`) and does not wake; and
concretely `after 42 3` is pending on polls 1-3 and yields `42` on the
4th. -/
theorem after_pending_then_ready {α : Type} (x : α) (mp : Nat) :
    pollTrace After.poll (mp + 1) (after x mp) =
      List.replicate mp (some (Poll.pending, true)) ++
        [some (Poll.ready x, false)] ∧
    After.poll ⟨some x, mp, mp⟩ =
      some ⟨Poll.ready x, ⟨none, mp, mp⟩, false⟩ ∧
    pollTrace After.poll 4 (after (42 : Nat) 3) =
      [some (Poll.pending, true), some (Poll.pending, true),
       some (Poll.pending, true), some (Poll.ready 42, false)] :=
  ⟨pollTrace_after α x mp 0 mp (Nat.zero_add mp),
   by simp [After.poll], by decide⟩

/-- C4: invariant of `Abort` preserved by every non-panicking poll: the
limit is unchanged, `num_polls` never decreases, never exceeds the limit
(given it did not before), increases by exactly 1 when the poll is
forwarded, and once `num_polls = max_polls` every poll — under any inner
poll function — short-circuits to the `Aborted` failure with the state
unchanged and the inner future untouched. -/
theorem abort_poll_invariant {σ α : Type}
    (pollFn : σ → Option (PollResult σ α)) (s : Abort σ)
    (r : PollResult (Abort σ) (Except Aborted α))
    (hpoll : Abort.poll pollFn s = some r)
    (hinv : s.num_polls ≤ s.max_polls) :
    r.state.max_polls = s.max_polls ∧
    s.num_polls ≤ r.state.num_polls ∧
    r.state.num_polls ≤ s.max_polls ∧
    (s.num_polls < s.max_polls → r.state.num_polls = s.num_polls + 1) ∧
    (s.num_polls = s.max_polls →
      ∀ g : σ → Option (PollResult σ α),
        Abort.poll g s =
          some ⟨Poll.ready (Except.error ⟨s.num_polls⟩), s, false⟩) := by
  by_cases hge : s.num_polls ≥ s.max_polls
  · rw [Abort.poll, if_pos hge] at hpoll
    simp only [Option.some.injEq] at hpoll
    subst hpoll
    refine ⟨rfl, Nat.le_refl _, hinv, ?_, ?_⟩
    · intro hlt; omega
    · intro _ g
      rw [Abort.poll, if_pos hge]
  · rw [Abort.poll, if_neg hge] at hpoll
    cases hfs : pollFn s.future with
    | none => rw [hfs] at hpoll; exact absurd hpoll (by simp)
    | some rr =>
      rw [hfs] at hpoll
      obtain ⟨out, st, wk⟩ := rr
      cases out with
      | ready v =>
        simp only [Option.some.injEq] at hpoll
        subst hpoll
        exact ⟨rfl, Nat.le_succ _,
          (show s.num_polls + 1 ≤ s.max_polls by omega), fun _ => rfl,
          fun heq => absurd heq (by omega)⟩
      | pending =>
        simp only [Option.some.injEq] at hpoll
        subst hpoll
        exact ⟨rfl, Nat.le_succ _,
          (show s.num_polls + 1 ≤ s.max_polls by omega), fun _ => rfl,
          fun heq => absurd heq (by omega)⟩

/-- Witness for C4 at a completed state: `Abort` with both counters at 1
wrapped around `Never`. -/
theorem abort_poll_invariant_witness :
    Abort.poll Never.poll (⟨1, 1, never⟩ : Abort Never) =
      some ⟨Poll.ready (Except.error ⟨1⟩), ⟨1, 1, never⟩, false⟩ ∧
    1 ≤ 1 ∧
    ((⟨Poll.ready (Except.error ⟨1⟩), (⟨1, 1, never⟩ : Abort Never),
        false⟩ : PollResult (Abort Never) (Except Aborted Unit)).state.max_polls = 1 ∧
      1 ≤ (⟨Poll.ready (Except.error ⟨1⟩), (⟨1, 1, never⟩ : Abort Never),
        false⟩ : PollResult (Abort Never) (Except Aborted Unit)).state.num_polls ∧
      (⟨Poll.ready (Except.error ⟨1⟩), (⟨1, 1, never⟩ : Abort Never),
        false⟩ : PollResult (Abort Never) (Except Aborted Unit)).state.num_polls ≤ 1 ∧
      ((1 : Nat) < 1 →
        (⟨Poll.ready (Except.error ⟨1⟩), (⟨1, 1, never⟩ : Abort Never),
          false⟩ : PollResult (Abort Never) (Except Aborted Unit)).state.num_polls = 1 + 1) ∧
      ((1 : Nat) = 1 →
        ∀ g : Never → Option (PollResult Never Unit),
          Abort.poll g ⟨1, 1, never⟩ =
            some ⟨Poll.ready (Except.error ⟨1⟩), ⟨1, 1, never⟩, false⟩)) :=
  ⟨rfl, Nat.le_refl 1,
   abort_poll_invariant Never.poll ⟨1, 1, never⟩ _ rfl (Nat.le_refl 1)⟩

/-- C8 counterexample: `abort(never(), 0)` completes on its first poll with
`Ready(Err(Aborted 0))` and its state is unchanged, so that very state is
the already-completed wrapper; polling it again returns
`some (Ready(Err(Aborted 0)))` — it does not panic. -/
theorem abort_repoll_no_panic :
    Abort.poll Never.poll (abort never 0) =
      some ⟨Poll.ready (Except.error ⟨0⟩), abort never 0, false⟩ ∧
    Abort.poll Never.poll (abort never 0) ≠ none :=
  ⟨rfl, fun h => Option.noConfusion h⟩

/-- C8 (amended): polling an already-completed `After` (held value gone,
counter at or past the limit) panics on the double extraction of the moved
value, while polling an `Abort` whose counter has reached its limit does
not panic: it returns the same `Err(Aborted)` result again with the state
unchanged. -/
theorem completed_poll_behavior {σ α β : Type} (k mp : Nat) (hk : mp ≤ k)
    (pollFn : σ → Option (PollResult σ β)) (s : Abort σ)
    (hs : s.max_polls ≤ s.num_polls) :
    After.poll (⟨none, k, mp⟩ : After α) = none ∧
    Abort.poll pollFn s =
      some ⟨Poll.ready (Except.error ⟨s.num_polls⟩), s, false⟩ := by
  constructor
  · rw [After.poll, if_pos hk]
  · rw [Abort.poll, if_pos hs]

/-- Witness for C8 (amended) at `After Nat` with counters 3/3 and an
`Abort` over `Never` with counters 2/2. -/
theorem completed_poll_behavior_witness :
    3 ≤ 3 ∧ (2 : Nat) ≤ 2 ∧
    (After.poll (⟨none, 3, 3⟩ : After Nat) = none ∧
     Abort.poll Never.poll (⟨2, 2, never⟩ : Abort Never) =
       some ⟨Poll.ready (Except.error ⟨2⟩), ⟨2, 2, never⟩, false⟩) :=
  ⟨Nat.le_refl 3, Nat.le_refl 2,
   completed_poll_behavior 3 3 (Nat.le_refl 3) Never.poll ⟨2, 2, never⟩
     (Nat.le_refl 2)⟩

/-- C9: when the inner future returns `Pending`, `Abort.poll` propagates
`Pending`; the only state change is the increment of `num_polls` and the
inner future's own single step, and the waker flag is exactly the inner
poll's flag — `Abort` adds no wake-up of its own. -/
theorem abort_pending_pass_through {σ α : Type}
    (pollFn : σ → Option (PollResult σ α)) (s : Abort σ) (s2 : σ) (w : Bool)
    (hlt : s.num_polls < s.max_polls)
    (hp : pollFn s.future = some ⟨Poll.pending, s2, w⟩) :
    Abort.poll pollFn s =
      some ⟨Poll.pending, ⟨s.num_polls + 1, s.max_polls, s2⟩, w⟩ := by
  have h1 : ¬ s.num_polls ≥ s.max_polls := by omega
  rw [Abort.poll, if_neg h1, hp]

/-- Witness for C9 with an inner future that pends without waking: the
wrapper's poll also reports no wake. -/
theorem abort_pending_pass_through_witness :
    (abort () 1).num_polls < (abort () 1).max_polls ∧
    (fun s : Unit => some (⟨Poll.pending, s, false⟩ : PollResult Unit Nat))
        (abort () 1).future = some ⟨Poll.pending, (), false⟩ ∧
    Abort.poll (fun s : Unit =>
        some (⟨Poll.pending, s, false⟩ : PollResult Unit Nat)) (abort () 1) =
      some ⟨Poll.pending, ⟨1, 1, ()⟩, false⟩ :=
  ⟨by decide, rfl,
   abort_pending_pass_through
     (fun s : Unit => some (⟨Poll.pending, s, false⟩ : PollResult Unit Nat))
     (abort () 1) () false (by decide) rfl⟩

/-- Helper for C10: along any run of an `Abort` wrapper whose counter does
not exceed its limit, a resolved `Aborted` error reports exactly the
limit. -/
theorem run_abort_error_reports_max {σ α : Type}
    (pollFn : σ → Option (PollResult σ α)) :
    ∀ (fuel : Nat) (s : Abort σ) (e : Aborted),
    s.num_polls ≤ s.max_polls →
    run (Abort.poll pollFn) fuel s = RunResult.resolved (Except.error e) →
    e.num_polls = s.max_polls := by
  intro fuel
  induction fuel with
  | zero =>
    intro s e _ hrun
    exact absurd hrun (by simp [run])
  | succ fuel ih =>
    intro s e hinv hrun
    by_cases hge : s.num_polls ≥ s.max_polls
    · rw [run, Abort.poll, if_pos hge] at hrun
      simp only [RunResult.resolved.injEq, Except.error.injEq] at hrun
      rw [← hrun]
      exact Nat.le_antisymm hinv hge
    · rw [run, Abort.poll, if_neg hge] at hrun
      cases hfs : pollFn s.future with
      | none => rw [hfs] at hrun; exact absurd hrun (by simp)
      | some rr =>
        rw [hfs] at hrun
        obtain ⟨out, st, wk⟩ := rr
        cases out with
        | ready v => exact absurd hrun (by simp)
        | pending =>
          exact ih ⟨s.num_polls + 1, s.max_polls, st⟩ e
            (show s.num_polls + 1 ≤ s.max_polls by omega) hrun

/-- C10: whenever driving `abort(inner, M)` resolves to an `Aborted` error,
the reported `num_polls` equals `M` exactly — for any inner future, any
poll function, any limit and any fuel. -/
theorem abort_error_num_polls_exact {σ α : Type}
    (pollFn : σ → Option (PollResult σ α)) (s0 : σ) (M fuel : Nat)
    (e : Aborted)
    (h : run (Abort.poll pollFn) fuel (abort s0 M) =
      RunResult.resolved (Except.error e)) :
    e.num_polls = M :=
  run_abort_error_reports_max pollFn fuel (abort s0 M) e (Nat.zero_le M) h

/-- Witness for C10: `abort(never(), 2)` driven with fuel 3 resolves to
`Err(Aborted 2)`, and the reported count equals the limit 2. -/
theorem abort_error_num_polls_exact_witness :
    run (Abort.poll Never.poll) 3 (abort never 2) =
      RunResult.resolved (Except.error ⟨2⟩) ∧
    (⟨2⟩ : Aborted).num_polls = 2 :=
  ⟨rfl, abort_error_num_polls_exact Never.poll never 2 3 ⟨2⟩ rfl⟩

end FuturesTestAbort
